import Mathlib

/-!
Verification of `emukit/core/bandit_parameter.py` (`BanditParameter`).

The domain of a `BanditParameter` is an N x D numpy array of valid joint
value-combinations.  We embed numpy cell values as exact rationals `ℚ`
(the float values appearing in the spec's examples are exactly
representable); a numpy array is rectangular, so a 2-D array is a list of
rows together with its column count (needed because a (0, D) array still
has D columns), and the dtype is array-wide, carried separately.

Distances: `np.linalg.norm(d - row)` is the Euclidean norm
`sqrt(sum((d_i - row_i)^2))`.  Since `sqrt` is strictly monotone, the
nearest-row scan (`min` with that key, including its keep-first tie
behaviour) coincides with the scan keyed by the squared distance, which we
use so that all comparisons stay in `ℚ`.

The collaborator classes `Parameter`, `ContinuousParameter`,
`DiscreteParameter`, `CategoricalParameter` and `OneHotEncoding` are not
part of the analysed sources; the definitions marked
`Modelled from the spec:` reproduce the behaviour the spec assigns to them.
-/

namespace Bandit

/-- Equality of `Except` values is decidable when both component types have
decidable equality; used to evaluate the model on concrete inputs. -/
instance exceptDecEq {ε α : Type _} [DecidableEq ε] [DecidableEq α] :
    DecidableEq (Except ε α) := fun x y =>
  match x, y with
  | .error a, .error b =>
    if h : a = b then isTrue (by rw [h])
    else isFalse (fun hc => h (Except.error.inj hc))
  | .error _, .ok _ => isFalse (fun hc => Except.noConfusion hc)
  | .ok _, .error _ => isFalse (fun hc => Except.noConfusion hc)
  | .ok a, .ok b =>
    if h : a = b then isTrue (by rw [h])
    else isFalse (fun hc => h (Except.ok.inj hc))

/-- A row / 1-D point: a list of rational cell values. -/
abbrev Row := List ℚ

/-- A rectangular table of rows. -/
abbrev Table := List Row

/-- The array-wide numpy dtype, as far as `np.issubdtype(dtype, np.number)`
can observe it: numeric or not.  (For a non-numeric array the `ℚ` cell
values are immaterial: construction reads at most `np.unique` of a column
before failing, and no such object is ever built.) -/
inductive DType where
  | number : DType
  | object : DType
deriving DecidableEq, Repr

/-- A numpy ndarray argument, by dimensionality: a 1-D vector, a 2-D array
(column count kept explicitly, rows all of that length), or an array of
dimension `3 + k` (its data is never read: every modelled operation
rejects it on `ndim` alone). -/
inductive NdArr where
  | mk1 (v : Row) : NdArr
  | mk2 (cols : Nat) (rows : Table) : NdArr
  | mkHigher (k : Nat) : NdArr
deriving DecidableEq, Repr

/-- The argument type `Union[np.ndarray, float]` of `check_in_domain`. -/
inductive PyVal where
  | scalar (c : ℚ) : PyVal
  | arr (a : NdArr) : PyVal
deriving DecidableEq, Repr

/-- Modelled from the spec: `OneHotEncoding`, built from a list of distinct
values, one indicator dimension per distinct value. -/
structure OneHotEncoding where
  levels : Row
deriving DecidableEq, Repr

/-- Modelled from the spec: the closed set of sub-parameter descriptor
kinds.  `continuous`, `discrete` and `categorical` are the three classes
the source dispatches on with `isinstance`; `extra` stands for any other
`Parameter` subclass (the source's final `else` branch). -/
inductive SubParam where
  | continuous (name : String) (lo hi : ℚ) : SubParam
  | discrete (name : String) (domain : Row) : SubParam
  | categorical (name : String) (encoding : OneHotEncoding) : SubParam
  | extra (name : String) : SubParam
deriving DecidableEq, Repr

/-- Modelled from the spec: `CategoricalParameter.dimension` is the one-hot
width, i.e. the number of levels of its encoding. -/
def catDimension (e : OneHotEncoding) : Nat :=
  e.levels.length

/-- Smallest element of a row (`0` for the empty row); used for the
spec-modelled `DiscreteParameter.bounds`. -/
def rowMin (v : Row) : ℚ :=
  v.foldl min (v.headD 0)

/-- Largest element of a row (`0` for the empty row). -/
def rowMax (v : Row) : ℚ :=
  v.foldl max (v.headD 0)

/-- Modelled from the spec: each sub-parameter's own `bounds` list.  A
continuous parameter contributes its one (low, high) pair; a discrete
parameter contributes one pair spanning its minimum/maximum valid value; a
categorical parameter contributes one pair per one-hot dimension; an
unknown kind is outside the modelled collaborators and contributes
nothing. -/
def subParamBounds : SubParam → List (ℚ × ℚ)
  | .continuous _ lo hi => [(lo, hi)]
  | .discrete _ dom => [(rowMin dom, rowMax dom)]
  | .categorical _ e => List.replicate (catDimension e) (0, 1)
  | .extra _ => []

/-- The `BanditParameter` object after a successful `__init__`: its name,
the stored domain table (rows plus explicit column count), and the
reflected sub-parameter list. -/
structure BanditParameter where
  name : String
  domain : Table
  domainCols : Nat
  parameters : List SubParam
deriving DecidableEq, Repr

/-- One row of the numpy comparison `row == x` between a length-D domain
row and a 1-D query of length k: elementwise when k = D, the query value
broadcast across the row when k = 1, the row's single value broadcast
across the query when D = 1, and a broadcast error otherwise. -/
def bcastEqRow (row x : Row) : Option (List Bool) :=
  if x.length = row.length then some (List.zipWith (fun a b => a == b) row x)
  else if x.length = 1 then some (row.map (fun a => a == x.headD 0))
  else if row.length = 1 then some (x.map (fun b => row.headD 0 == b))
  else none

/-- The source's membership core `(self.domain == x).all(axis=1).any()` for
a 1-D query `x`: per domain row, AND of the elementwise comparison, then OR
across rows; a broadcast failure is a raised numpy error. -/
def eqAllAny (x : Row) : Table → Except String Bool
  | [] => .ok false
  | r :: rs =>
    match bcastEqRow r x with
    | none => .error "operands could not be broadcast together"
    | some bs => do
      let rest ← eqAllAny x rs
      pure (bs.all id || rest)

/-- `BanditParameter.check_in_domain`: a 2-D (n, 1) array is flattened,
any other array of dimension above 1 raises, a 1-D array is used as-is,
and a scalar skips normalization entirely (numpy then broadcasts it
against every cell). -/
def check_in_domain (bp : BanditParameter) (x : PyVal) : Except String Bool :=
  match x with
  | .scalar c => .ok (bp.domain.any (fun r => r.all (fun a => a == c)))
  | .arr (.mk1 v) => eqAllAny v bp.domain
  | .arr (.mk2 cols rows) =>
    if cols = 1 then eqAllAny (rows.map (fun r => r.headD 0)) bp.domain
    else .error "Expected x shape (n,) or (n, 1)"
  | .arr (.mkHigher _) => .error "Expected x shape (n,) or (n, 1)"

/-- Squared Euclidean distance between two rows; comparing these is
equivalent to comparing the `np.linalg.norm` values the source uses, since
square root is strictly monotone. -/
def sqDist (a b : Row) : ℚ :=
  (List.zipWith (fun p q => (p - q) ^ 2) a b).sum

/-- Generic left fold underlying Python's `min(..., key=f)`: the running
best is replaced only when a later candidate is strictly smaller, so the
first minimal element wins ties. -/
def minByFold (f : Row → ℚ) (b : Row) (l : Table) : Row :=
  l.foldl (fun best c => if f c < f best then c else best) b

/-- `min(self.domain, key=lambda d: np.linalg.norm(d - row))`: `none` on an
empty domain (Python raises ValueError there).  The `dists` value computed
on the line before in the source is a whole-table aggregate that is never
used, so it does not appear in the model. -/
def minByNorm (domain : Table) (row : Row) : Option Row :=
  match domain with
  | [] => none
  | d :: ds => some (minByFold (fun c => sqDist c row) d ds)

/-- The per-row loop of `round`: each input row is replaced by the nearest
domain row, in input order. -/
def roundRows (domain : Table) : Table → Except String Table
  | [] => .ok []
  | row :: rest =>
    match minByNorm domain row with
    | none => .error "min() arg is an empty sequence"
    | some v => do
      let vs ← roundRows domain rest
      pure (v :: vs)

/-- One iteration of the `dimension` loop: the isinstance dispatch adds 1
for a ContinuousParameter, 1 for a DiscreteParameter, the sub-parameter's
own dimension for a CategoricalParameter, and raises on anything else (the
source's message interpolates the offending type). -/
def dimStep (d : Nat) : SubParam → Except String Nat
  | .continuous _ _ _ => .ok (d + 1)
  | .discrete _ _ => .ok (d + 1)
  | .categorical _ e => .ok (d + catDimension e)
  | .extra _ => .error "Parameter type not supported."

/-- `BanditParameter.dimension`: the accumulating loop over the
sub-parameter list. -/
def dimension (ps : List SubParam) : Except String Nat :=
  ps.foldlM dimStep 0

/-- Kind test: is this descriptor a `DiscreteParameter`. -/
def SubParam.isDiscrete : SubParam → Bool
  | .discrete _ _ => true
  | _ => false

/-- Kind test: is this descriptor outside the three classes the source
dispatches on. -/
def SubParam.isExtra : SubParam → Bool
  | .extra _ => true
  | _ => false

/-- The per-descriptor dimension contribution: one for continuous and
discrete descriptors, the one-hot width for categorical descriptors; an
unknown kind contributes nothing since `dimension` fails on it. -/
def dimContrib : SubParam → Nat
  | .continuous _ _ _ => 1
  | .discrete _ _ => 1
  | .categorical _ e => catDimension e
  | .extra _ => 0

/-- `BanditParameter.bounds`: the concatenation, in sub-parameter order, of
each sub-parameter's own bounds list. -/
def bounds (bp : BanditParameter) : List (ℚ × ℚ) :=
  (bp.parameters.map subParamBounds).flatten

/-- The source's `assert all([self.check_in_domain(xr) for xr in x_rounded])`.
Each `xr` is the Python list `[rounded_value]`, not an ndarray, so
`check_in_domain` skips shape normalization and numpy broadcasts the
wrapped (1, D) row against the (N, D) domain — per domain row the same
comparison `eqAllAny` performs.  The comprehension evaluates every check
(propagating any raised error), then `all` combines them. -/
def assertAllInDomain (domain : Table) : Table → Except String Bool
  | [] => .ok true
  | v :: vs => do
    let b ← eqAllAny v domain
    let rest ← assertAllInDomain domain vs
    pure (b && rest)

/-- `BanditParameter.round`: rejects non-2-D input, rejects a column count
different from `dimension` (evaluating `dimension` can itself raise),
projects each row to the nearest domain row, asserts every projected row
is in the domain, and stacks the projected rows.  `np.row_stack` raises on
an empty list, i.e. when the input had zero rows. -/
def roundBP (bp : BanditParameter) (x : NdArr) : Except String Table :=
  match x with
  | .mk1 _ => .error "Expected 2d array, got 1"
  | .mkHigher k => .error ("Expected 2d array, got " ++ toString (k + 3))
  | .mk2 cols rows => do
    let dim ← dimension bp.parameters
    if cols ≠ dim then .error "Expected a dimension column array" else do
      let xr ← roundRows bp.domain rows
      let ok ← assertAllInDomain bp.domain xr
      if ok then
        if xr.isEmpty then .error "need at least one array to concatenate"
        else .ok xr
      else .error "AssertionError"

/-- `np.random.choice(N, point_count)` draws `point_count` indices
uniformly with replacement from `0, ..., N - 1`; the random draw is
modelled by the index list `idxs` (each entry below `N`), and
`sample_uniform` is the fancy-indexing `self.domain[idxs]`. -/
def sample_uniform (bp : BanditParameter) (idxs : List Nat) : Table :=
  idxs.map (fun i => bp.domain.getD i [])

/-- `BanditParameter._create_parameter_names`: default sub-parameter names
`name_0, ..., name_(D-1)`. -/
def createParameterNames (name : String) (ncols : Nat) : List String :=
  (List.range ncols).map (fun i => name ++ "_" ++ toString i)

/-- Column `cix` of the domain table, `domain[:, cix]`. -/
def column (rows : Table) (cix : Nat) : Row :=
  rows.map (fun r => r.getD cix 0)

/-- `np.unique`: the sorted distinct values of a column. -/
def npUnique (v : Row) : Row :=
  (v.dedup).insertionSort (fun a b => a ≤ b)

/-- The body of the reflection loop for one column: a numeric dtype yields
a `DiscreteParameter` over the column's unique values; otherwise a one-hot
encoding and a `CategoricalParameter` are built and then
`NotImplementedError` is raised unconditionally, discarding them. -/
def reflectColumn (dt : DType) (rows : Table) (cix : Nat) (pname : String) :
    Except String SubParam :=
  let domainUnq := npUnique (column rows cix)
  match dt with
  | .number => .ok (.discrete pname domainUnq)
  | .object =>
    let _encoding : OneHotEncoding := ⟨domainUnq⟩
    let _parameter : SubParam := .categorical pname _encoding
    .error "Categorical sub-parameters not yet fully supported"

/-- The reflection loop over the enumerated parameter names, appending one
sub-parameter per column in order and propagating the first error. -/
def createColumns (dt : DType) (rows : Table) :
    List (Nat × String) → Except String (List SubParam)
  | [] => .ok []
  | (cix, pname) :: rest => do
    let p ← reflectColumn dt rows cix pname
    let ps ← createColumns dt rows rest
    pure (p :: ps)

/-- Python's `parameter_names if parameter_names else default`: an absent
or empty (falsy) supplied list is replaced by the default names. -/
def resolveNames (name : String) (cols : Nat) : Option (List String) → List String
  | some l => if l.isEmpty then createParameterNames name cols else l
  | none => createParameterNames name cols

/-- `BanditParameter._create_parameters`: resolve the name list, assert its
length matches the column count, then run the reflection loop over the
enumerated names. -/
def createParameters (name : String) (dt : DType) (cols : Nat) (rows : Table)
    (parameterNames : Option (List String)) : Except String (List SubParam) :=
  if cols = (resolveNames name cols parameterNames).length then
    createColumns dt rows (resolveNames name cols parameterNames).enum
  else .error "AssertionError: name count differs from column count"

/-- `BanditParameter.__init__`: asserts the domain is a 2-D array, stores
it, and reflects the sub-parameters from it. -/
def mkBanditParameter (name : String) (dt : DType) (domainArr : NdArr)
    (subParameterNames : Option (List String)) : Except String BanditParameter :=
  match domainArr with
  | .mk1 _ => .error "AssertionError: domain.ndim is 1"
  | .mkHigher _ => .error "AssertionError: domain.ndim exceeds 2"
  | .mk2 cols rows => do
    let ps ← createParameters name dt cols rows subParameterNames
    pure { name := name, domain := rows, domainCols := cols, parameters := ps }

/-- The spec's running example: domain rows [1, 10], [1, 20], [2, 10]. -/
def exDomain : Table := [[1, 10], [1, 20], [2, 10]]

/-- The `BanditParameter` the constructor produces from `exDomain`. -/
def exBP : BanditParameter :=
  { name := "b"
    domain := exDomain
    domainCols := 2
    parameters := [.discrete "b_0" [1, 2], .discrete "b_1" [10, 20]] }

/-- Construction on the running example produces exactly `exBP`. -/
theorem exBP_construction : mkBanditParameter "b" .number (.mk2 2 exDomain) none = .ok exBP := by
  decide

/-- Evaluating a successful `Except` computation's continuation. -/
theorem ok_bind {α β : Type _} (a : α) (f : α → Except String β) :
    (Except.ok a >>= f) = f a := rfl

/-- The monadic `pure` of `Except` is `Except.ok`. -/
theorem pure_eq_ok {α : Type _} (a : α) :
    (pure a : Except String α) = Except.ok a := rfl

/-- A failed `Except` computation short-circuits its continuation. -/
theorem error_bind {α β : Type _} (e : String) (f : α → Except String β) :
    ((Except.error e : Except String α) >>= f) = Except.error e := rfl

/-- ANDing the elementwise comparisons of two equal-length rows is row
equality. -/
theorem zipWith_beq_all_iff {a b : Row} (h : a.length = b.length) :
    ((List.zipWith (fun x y => x == y) a b).all id = true) ↔ a = b := by
  induction a generalizing b with
  | nil => cases b with
    | nil => simp
    | cons y ys => simp at h
  | cons x xs ih =>
    cases b with
    | nil => simp at h
    | cons y ys =>
      have hl : xs.length = ys.length := by simpa using h
      simp [List.zipWith, ih hl, beq_iff_eq]

/-- Under a domain whose rows all have the query's length, the membership
core `(domain == x).all(axis=1).any()` computes exact row membership. -/
theorem eqAllAny_ok {domain : Table} {x : Row}
    (h : ∀ r ∈ domain, r.length = x.length) :
    eqAllAny x domain = .ok (decide (x ∈ domain)) := by
  induction domain with
  | nil => simp [eqAllAny]
  | cons r rs ih =>
    have hr : x.length = r.length := (h r (List.mem_cons_self r rs)).symm
    have hrs := ih (fun r' hr' => h r' (List.mem_cons_of_mem _ hr'))
    have h2 : (List.zipWith (fun a b => a == b) r x).all id = decide (r = x) := by
      cases hd : decide (r = x) with
      | true =>
        exact (zipWith_beq_all_iff hr.symm).mpr (of_decide_eq_true hd)
      | false =>
        by_contra hb
        exact of_decide_eq_false hd
          ((zipWith_beq_all_iff hr.symm).mp (Bool.of_not_eq_false hb))
    simp only [eqAllAny, bcastEqRow, if_pos hr, hrs, ok_bind]
    by_cases hxr : x = r <;> by_cases hxs : x ∈ rs <;>
      simp [h2, hxr, hxs, eq_comm, List.mem_cons, pure_eq_ok]

/-- C1: for a 1-D query point whose length matches every domain row,
`check_in_domain` returns true iff the point is exactly equal,
element-by-element, to some row of the domain table (AND across the row's
elements, OR across rows), with no tolerance; in particular it is true at
every domain row, and false at any length-D point equal to no row even
when each component appears somewhere in its column. -/
theorem check_in_domain_exact_row_membership (bp : BanditParameter) (x : Row)
    (h : ∀ r ∈ bp.domain, r.length = x.length) :
    check_in_domain bp (.arr (.mk1 x)) = .ok (decide (x ∈ bp.domain)) :=
  eqAllAny_ok h

/-- Witness for C1 on the spec's example domain: [1, 20] is a domain row,
and [2, 20] is rejected although 2 and 20 each appear in their columns. -/
theorem check_in_domain_exact_row_membership_inst :
    check_in_domain exBP (.arr (.mk1 [1, 20])) = .ok true ∧
    check_in_domain exBP (.arr (.mk1 [2, 20])) = .ok false := by
  constructor
  · rw [check_in_domain_exact_row_membership exBP [1, 20] (by decide)]
    exact congrArg Except.ok (by decide)
  · rw [check_in_domain_exact_row_membership exBP [2, 20] (by decide)]
    exact congrArg Except.ok (by decide)

/-- A width-1 domain matches a broadcast scalar exactly on the rows equal
to the singleton of that scalar. -/
theorem scalar_any_of_width_one {domain : Table} (c : ℚ)
    (h : ∀ r ∈ domain, r.length = 1) :
    domain.any (fun r => r.all (fun a => a == c)) = decide ([c] ∈ domain) := by
  induction domain with
  | nil => simp
  | cons r rs ih =>
    have hr := h r (List.mem_cons_self r rs)
    obtain ⟨a, rfl⟩ : ∃ a, r = [a] := by
      cases r with
      | nil => simp at hr
      | cons a t =>
        cases t with
        | nil => exact ⟨a, rfl⟩
        | cons b t2 => simp at hr
    have hrs := ih (fun r' h' => h r' (List.mem_cons_of_mem _ h'))
    by_cases hac : a = c
    · simp [hrs, hac, List.mem_cons, eq_comm]
    · have h1 : (a == c) = false := by simpa using hac
      have h2 : decide (c = a) = false := by simpa using Ne.symm hac
      simp [hrs, h1, h2, List.mem_cons, eq_comm]

/-- C7: input normalization of `check_in_domain` — a 1-D point is used
as-is; a (n, 1) column vector is flattened before comparison; a scalar is
accepted when the domain has one column; any 2-D array whose second
dimension is not 1, and any higher-dimensional array, fails with the
invalid-shape error instead of returning a boolean. -/
theorem check_in_domain_input_normalization (bp : BanditParameter) :
    (∀ x : Row, (∀ r ∈ bp.domain, r.length = x.length) →
      check_in_domain bp (.arr (.mk1 x)) = .ok (decide (x ∈ bp.domain))) ∧
    (∀ rows : Table, check_in_domain bp (.arr (.mk2 1 rows)) =
      check_in_domain bp (.arr (.mk1 (rows.map (fun r => r.headD 0))))) ∧
    (∀ c : ℚ, (∀ r ∈ bp.domain, r.length = 1) →
      check_in_domain bp (.scalar c) = .ok (decide ([c] ∈ bp.domain))) ∧
    (∀ cols rows, cols ≠ 1 → check_in_domain bp (.arr (.mk2 cols rows)) =
      .error "Expected x shape (n,) or (n, 1)") ∧
    (∀ k, check_in_domain bp (.arr (.mkHigher k)) =
      .error "Expected x shape (n,) or (n, 1)") := by
  refine ⟨fun x hx => eqAllAny_ok hx, fun rows => rfl, ?_, ?_, fun k => rfl⟩
  · intro c hc
    show Except.ok _ = _
    rw [scalar_any_of_width_one c hc]
  · intro cols rows hcols
    simp [check_in_domain, hcols]

/-- Witness for C7 on the spec's example domain: a (2, 1) column vector is
flattened (here hitting a broadcast mismatch only because the example
domain has two columns), a scalar against a width-2 domain and a (1, 2)
2-D query illustrate the other branches at concrete inputs. -/
theorem check_in_domain_input_normalization_inst :
    check_in_domain exBP (.arr (.mk1 [1, 10])) = .ok true ∧
    check_in_domain exBP (.arr (.mk2 2 [[1, 10]])) =
      .error "Expected x shape (n,) or (n, 1)" ∧
    check_in_domain exBP (.arr (.mkHigher 0)) =
      .error "Expected x shape (n,) or (n, 1)" := by
  have h := check_in_domain_input_normalization exBP
  refine ⟨?_, h.2.2.2.1 2 [[1, 10]] (by decide), h.2.2.2.2 0⟩
  rw [h.1 [1, 10] (by decide)]
  exact congrArg Except.ok (by decide)

/-- C6: with `np.random.choice` modelled by its output index list (each
index below the domain's row count), `sample_uniform` returns one row per
index, every returned row is a domain row of width D satisfying
`check_in_domain`, and the empty draw returns the empty table. -/
theorem sample_uniform_rows_in_domain (bp : BanditParameter) (idxs : List Nat)
    (hidx : ∀ i ∈ idxs, i < bp.domain.length)
    (hrect : ∀ r ∈ bp.domain, r.length = bp.domainCols) :
    (sample_uniform bp idxs).length = idxs.length ∧
    (∀ r ∈ sample_uniform bp idxs, r ∈ bp.domain ∧ r.length = bp.domainCols ∧
      check_in_domain bp (.arr (.mk1 r)) = .ok true) ∧
    sample_uniform bp [] = [] := by
  refine ⟨List.length_map _ _, ?_, rfl⟩
  intro r hr
  obtain ⟨i, hi, rfl⟩ := List.mem_map.mp hr
  have hlt := hidx i hi
  have hmem : bp.domain.getD i [] ∈ bp.domain := by
    rw [List.getD_eq_getElem bp.domain [] hlt]
    exact List.getElem_mem hlt
  refine ⟨hmem, hrect _ hmem, ?_⟩
  rw [check_in_domain_exact_row_membership bp _
    (fun r' h' => (hrect r' h').trans (hrect _ hmem).symm)]
  exact congrArg Except.ok (decide_eq_true hmem)

/-- Witness for C6: drawing indices 0, 2, 1, 1 from the example domain
gives four rows, and the drawn row [2, 10] is a domain member passing
`check_in_domain`. -/
theorem sample_uniform_rows_in_domain_inst :
    (sample_uniform exBP [0, 2, 1, 1]).length = 4 ∧
    ([2, 10] ∈ exBP.domain ∧ ([2, 10] : Row).length = exBP.domainCols ∧
      check_in_domain exBP (.arr (.mk1 [2, 10])) = .ok true) := by
  have h := sample_uniform_rows_in_domain exBP [0, 2, 1, 1] (by decide) (by decide)
  exact ⟨h.1, h.2.1 [2, 10] (by decide)⟩

/-- The keyed fold behind Python's `min(..., key=f)`: its result splits the
scanned list as `pre ++ result :: suf`, attains the minimum key, and every
element before it in scan order has a strictly larger key — i.e. the fold
returns the first minimal element. -/
theorem minByFold_first (f : Row → ℚ) (l : Table) (b : Row) :
    ∃ pre suf, b :: l = pre ++ minByFold f b l :: suf ∧
      (∀ c ∈ b :: l, f (minByFold f b l) ≤ f c) ∧
      (∀ c ∈ pre, f (minByFold f b l) < f c) := by
  induction l generalizing b with
  | nil => exact ⟨[], [], rfl, by simp [minByFold], by simp⟩
  | cons c cs ih =>
    have hstep : minByFold f b (c :: cs) =
        minByFold f (if f c < f b then c else b) cs := rfl
    by_cases hcb : f c < f b
    · obtain ⟨pre', suf', hdec, hmin, hpre⟩ := ih c
      rw [if_pos hcb] at hstep
      refine ⟨b :: pre', suf', ?_, ?_, ?_⟩
      · rw [hstep, List.cons_append, ← hdec]
      · intro d hd
        rw [hstep]
        rcases List.mem_cons.mp hd with h | h
        · rw [h]
          exact le_of_lt (lt_of_le_of_lt (hmin c (List.mem_cons_self c cs)) hcb)
        · exact hmin d h
      · intro d hd
        rw [hstep]
        rcases List.mem_cons.mp hd with h | h
        · rw [h]
          exact lt_of_le_of_lt (hmin c (List.mem_cons_self c cs)) hcb
        · exact hpre d h
    · obtain ⟨pre', suf', hdec, hmin, hpre⟩ := ih b
      rw [if_neg hcb] at hstep
      have hbc : f b ≤ f c := le_of_not_lt hcb
      cases pre' with
      | nil =>
        have hb : b = minByFold f b cs := (List.cons.inj hdec.symm).1.symm
        refine ⟨[], c :: cs, ?_, ?_, by simp⟩
        · rw [hstep, ← hb]
          rfl
        · intro d hd
          rw [hstep, ← hb]
          rcases List.mem_cons.mp hd with h | h
          · rw [h]
          · rcases List.mem_cons.mp h with h' | h'
            · rw [h']
              exact hbc
            · have := hmin d (List.mem_cons_of_mem b h')
              rw [← hb] at this
              exact this
      | cons p pre'' =>
        have hp : b = p := (List.cons.inj hdec).1
        have hcs : cs = pre'' ++ minByFold f b cs :: suf' := (List.cons.inj hdec).2
        have hmb : f (minByFold f b cs) < f b := by
          have := hpre p (List.mem_cons_self p pre'')
          rw [← hp] at this
          exact this
        refine ⟨b :: c :: pre'', suf', ?_, ?_, ?_⟩
        · rw [hstep]
          show b :: c :: cs = b :: c :: (pre'' ++ _ :: suf')
          rw [← hcs]
        · intro d hd
          rw [hstep]
          rcases List.mem_cons.mp hd with h | h
          · rw [h]
            exact le_of_lt hmb
          · rcases List.mem_cons.mp h with h' | h'
            · rw [h']
              exact le_of_lt (lt_of_lt_of_le hmb hbc)
            · exact hmin d (List.mem_cons_of_mem b h')
        · intro d hd
          rw [hstep]
          rcases List.mem_cons.mp hd with h | h
          · rw [h]
            exact hmb
          · rcases List.mem_cons.mp h with h' | h'
            · rw [h']
              exact lt_of_lt_of_le hmb hbc
            · exact hpre d (List.mem_cons_of_mem p h')

/-- The nearest-row scan on a non-empty domain returns a first-minimal
domain row with respect to the (squared) Euclidean distance to the query
row. -/
theorem minByNorm_first {domain : Table} {row v : Row}
    (h : minByNorm domain row = some v) :
    ∃ pre suf, domain = pre ++ v :: suf ∧
      (∀ c ∈ domain, sqDist v row ≤ sqDist c row) ∧
      (∀ c ∈ pre, sqDist v row < sqDist c row) := by
  cases domain with
  | nil => simp [minByNorm] at h
  | cons d ds =>
    have hv : minByFold (fun c => sqDist c row) d ds = v := by
      simpa [minByNorm] using h
    obtain ⟨pre, suf, hdec, hmin, hpre⟩ := minByFold_first (fun c => sqDist c row) ds d
    rw [hv] at hdec hmin hpre
    exact ⟨pre, suf, hdec, hmin, hpre⟩

/-- The nearest-row scan's result is a domain row. -/
theorem minByNorm_mem {domain : Table} {row v : Row}
    (h : minByNorm domain row = some v) : v ∈ domain := by
  obtain ⟨pre, suf, hdec, _, _⟩ := minByNorm_first h
  rw [hdec]
  simp

/-- Inversion of the projection loop: one output row per input row, each
the nearest-row scan's result for the corresponding input row, and every
output row is a domain row. -/
theorem roundRows_ok {domain rows out : Table}
    (h : roundRows domain rows = .ok out) :
    out.length = rows.length ∧
    (∀ i, i < rows.length →
      minByNorm domain (rows.getD i []) = some (out.getD i [])) ∧
    (∀ v ∈ out, v ∈ domain) := by
  induction rows generalizing out with
  | nil =>
    have : out = [] := by simpa [roundRows] using h.symm
    subst this
    exact ⟨rfl, fun i hi => absurd hi (by simp), by simp⟩
  | cons row rest ih =>
    cases hm : minByNorm domain row with
    | none => rw [roundRows, hm] at h; exact absurd h (by simp)
    | some v =>
      simp only [roundRows, hm] at h
      cases hr : roundRows domain rest with
      | error e => rw [hr, error_bind] at h; exact absurd h (by simp)
      | ok vs =>
        rw [hr, ok_bind, pure_eq_ok] at h
        have hout : out = v :: vs := (Except.ok.inj h).symm
        subst hout
        obtain ⟨hlen, hidx, hmem⟩ := ih hr
        refine ⟨by simp [hlen], ?_, ?_⟩
        · intro i hi
          cases i with
          | zero => simpa using hm
          | succ j =>
            simp only [List.getD_cons_succ]
            exact hidx j (by simpa using hi)
        · intro w hw
          rcases List.mem_cons.mp hw with h' | h'
          · rw [h']
            exact minByNorm_mem hm
          · exact hmem w h'

/-- The projection loop succeeds on a non-empty domain, preserving the row
count, with every output row a domain row. -/
theorem roundRows_total {domain : Table} (hdom : domain ≠ []) (rows : Table) :
    ∃ out, roundRows domain rows = .ok out := by
  induction rows with
  | nil => exact ⟨[], rfl⟩
  | cons row rest ih =>
    obtain ⟨out, hout⟩ := ih
    cases hm : minByNorm domain row with
    | none =>
      cases domain with
      | nil => exact absurd rfl hdom
      | cons d ds => simp [minByNorm] at hm
    | some v =>
      exact ⟨v :: out, by simp only [roundRows, hm, hout, ok_bind, pure_eq_ok]⟩

/-- The post-projection assert succeeds when every projected row passes the
wrapped membership check. -/
theorem assertAllInDomain_ok {domain vs : Table}
    (h : ∀ v ∈ vs, eqAllAny v domain = .ok true) :
    assertAllInDomain domain vs = .ok true := by
  induction vs with
  | nil => rfl
  | cons v vs' ih =>
    rw [assertAllInDomain, h v (List.mem_cons_self v vs'), ok_bind,
      ih (fun w hw => h w (List.mem_cons_of_mem _ hw)), ok_bind, pure_eq_ok]
    rfl

/-- Inversion of the post-projection assert: it only returns true when
every projected row passed the wrapped membership check. -/
theorem assertAllInDomain_inv {domain vs : Table}
    (h : assertAllInDomain domain vs = .ok true) :
    ∀ v ∈ vs, eqAllAny v domain = .ok true := by
  induction vs with
  | nil => simp
  | cons v vs' ih =>
    intro w hw
    cases hb : eqAllAny v domain with
    | error e => rw [assertAllInDomain, hb, error_bind] at h; exact absurd h (by simp)
    | ok b =>
      rw [assertAllInDomain, hb, ok_bind] at h
      cases hrest : assertAllInDomain domain vs' with
      | error e => rw [hrest, error_bind] at h; exact absurd h (by simp)
      | ok rest =>
        rw [hrest, ok_bind, pure_eq_ok] at h
        have hand : (b && rest) = true := Except.ok.inj h
        obtain ⟨hb', hrest'⟩ : b = true ∧ rest = true := by simpa using hand
        rcases List.mem_cons.mp hw with h' | h'
        · rw [h', hb, hb']
        · exact ih (by rw [hrest, hrest']) w h'

/-- Inversion of an accepted `round` call: a success forces the dimension
lookup to succeed with exactly the input's column count, the per-row
projection to produce the output, the post-projection assert to hold, and
the output to be non-empty. -/
theorem roundBP_ok_inv {bp : BanditParameter} {cols : Nat} {rows out : Table}
    (h : roundBP bp (.mk2 cols rows) = .ok out) :
    roundRows bp.domain rows = .ok out ∧
    assertAllInDomain bp.domain out = .ok true ∧
    out ≠ [] ∧ dimension bp.parameters = .ok cols := by
  cases hd : dimension bp.parameters with
  | error e => rw [roundBP, hd, error_bind] at h; exact absurd h (by simp)
  | ok d =>
    rw [roundBP, hd, ok_bind] at h
    by_cases hc : cols = d
    · rw [if_neg (by simpa using hc)] at h
      cases hr : roundRows bp.domain rows with
      | error e => rw [hr, error_bind] at h; exact absurd h (by simp)
      | ok xr =>
        rw [hr, ok_bind] at h
        cases ha : assertAllInDomain bp.domain xr with
        | error e => rw [ha, error_bind] at h; exact absurd h (by simp)
        | ok b =>
          rw [ha, ok_bind] at h
          cases b with
          | false => rw [if_neg (by simp)] at h; exact absurd h (by simp)
          | true =>
            rw [if_pos rfl] at h
            cases hxr : xr.isEmpty with
            | true => rw [if_pos hxr] at h; exact absurd h (by simp)
            | false =>
              rw [if_neg (by simp [hxr])] at h
              have hout : xr = out := Except.ok.inj h
              subst hout
              subst hc
              exact ⟨rfl, ha, by simpa using hxr, rfl⟩
    · rw [if_pos (by simpa using hc)] at h
      exact absurd h (by simp)

/-- Evaluation of the nearest-row scan at the spec's example query
(1.2, 10.9): the first (and unique) minimizer is the domain row (1, 10). -/
theorem exMin_eval : minByNorm exDomain [6/5, 109/10] = some [1, 10] := by
  norm_num [minByNorm, exDomain, minByFold, sqDist, List.foldl, List.zipWith]

/-- Evaluation of `round` on the spec's example: projecting (1.2, 10.9)
onto the example domain yields exactly the row (1, 10). -/
theorem exRound_eval : roundBP exBP (.mk2 2 [[6/5, 109/10]]) = .ok [[1, 10]] := by
  have h1 : dimension exBP.parameters = .ok 2 := by decide
  have h2 : assertAllInDomain exBP.domain [[1, 10]] = .ok true := by decide
  have h3 : roundRows exBP.domain [[6/5, 109/10]] = .ok [[1, 10]] := by
    have hdom : exBP.domain = exDomain := rfl
    rw [roundRows, hdom, exMin_eval]
    rfl
  rw [roundBP, h1, ok_bind, if_neg (by simp), h3, ok_bind, h2, ok_bind,
    if_pos rfl, if_neg (by simp)]

/-- C2: every row that an accepted `round` call returns is exactly a row of
the domain table and passes `check_in_domain`; the source asserts exactly
this before returning. -/
theorem round_output_rows_in_domain (bp : BanditParameter) (cols : Nat)
    (rows out : Table) (h : roundBP bp (.mk2 cols rows) = .ok out) :
    assertAllInDomain bp.domain out = .ok true ∧
    ∀ r ∈ out, r ∈ bp.domain ∧ check_in_domain bp (.arr (.mk1 r)) = .ok true := by
  obtain ⟨hr, ha, _, _⟩ := roundBP_ok_inv h
  refine ⟨ha, fun r hrm => ⟨(roundRows_ok hr).2.2 r hrm, ?_⟩⟩
  exact assertAllInDomain_inv ha r hrm

/-- C3: `round` maps each input row to the first domain row attaining the
minimum Euclidean distance (ties broken by scan order), stacking the
selections in input order, one output row per input row; on the example
domain the query (1.2, 10.9) is rounded to exactly [[1, 10]]. -/
theorem round_selects_first_nearest_row :
    (∀ (bp : BanditParameter) (cols : Nat) (rows out : Table),
      roundBP bp (.mk2 cols rows) = .ok out →
      out.length = rows.length ∧
      ∀ i, i < rows.length → ∃ pre suf,
        bp.domain = pre ++ out.getD i [] :: suf ∧
        (∀ c ∈ bp.domain,
          sqDist (out.getD i []) (rows.getD i []) ≤ sqDist c (rows.getD i [])) ∧
        (∀ c ∈ pre,
          sqDist (out.getD i []) (rows.getD i []) < sqDist c (rows.getD i []))) ∧
    roundBP exBP (.mk2 2 [[6/5, 109/10]]) = .ok [[1, 10]] := by
  refine ⟨fun bp cols rows out h => ?_, exRound_eval⟩
  obtain ⟨hr, _, _, _⟩ := roundBP_ok_inv h
  obtain ⟨hlen, hidx, _⟩ := roundRows_ok hr
  exact ⟨hlen, fun i hi => minByNorm_first (hidx i hi)⟩

/-- Witness for C2: at the example instance, the row returned for the query
(1.2, 10.9) is the domain row (1, 10) and passes `check_in_domain`. -/
theorem round_output_rows_in_domain_inst :
    [1, 10] ∈ exBP.domain ∧
    check_in_domain exBP (.arr (.mk1 [1, 10])) = .ok true := by
  have h := round_output_rows_in_domain exBP 2 [[6/5, 109/10]] [[1, 10]] exRound_eval
  exact h.2 [1, 10] (by simp)

/-- Witness for C3: on the example instance the accepted query (1.2, 10.9)
produces exactly one output row, matching the one input row. -/
theorem round_selects_first_nearest_row_inst :
    ([[(1 : ℚ), 10]] : Table).length = ([[6/5, 109/10]] : Table).length := by
  exact (round_selects_first_nearest_row.1 exBP 2 [[6/5, 109/10]] [[1, 10]]
    round_selects_first_nearest_row.2).1

/-- C8 counterexample: on the example instance a (0, 2) input is 2-D with
exactly `dimension` columns, yet `round` raises — the empty list of rounded
rows reaches `np.row_stack`, which needs at least one array — refuting the
claim that no error is raised for any 2-D input with `dimension` columns. -/
theorem round_empty_input_errors :
    roundBP exBP (.mk2 2 []) = .error "need at least one array to concatenate" := by
  decide

/-- C8 (amended): `round` fails whenever its input is not 2-D or its column
count differs from `dimension`; a 2-D input with exactly `dimension`
columns is accepted provided it has at least one row (the zero-row input
fails in `np.row_stack`) and the domain is non-empty. -/
theorem round_error_conditions (bp : BanditParameter) (d : Nat)
    (hd : dimension bp.parameters = .ok d)
    (hrect : ∀ r1 ∈ bp.domain, ∀ r2 ∈ bp.domain, r1.length = r2.length)
    (hdom : bp.domain ≠ []) :
    (∀ v, roundBP bp (.mk1 v) = .error "Expected 2d array, got 1") ∧
    (∀ k, roundBP bp (.mkHigher k) =
      .error ("Expected 2d array, got " ++ toString (k + 3))) ∧
    (∀ cols rows, cols ≠ d →
      roundBP bp (.mk2 cols rows) = .error "Expected a dimension column array") ∧
    (∀ rows, rows ≠ [] → (roundBP bp (.mk2 d rows)).isOk = true) := by
  refine ⟨fun v => rfl, fun k => rfl, ?_, ?_⟩
  · intro cols rows hc
    rw [roundBP, hd, ok_bind, if_pos (by simpa using hc)]
  · intro rows hrows
    obtain ⟨out, hout⟩ := roundRows_total hdom rows
    obtain ⟨hlen, _, hmem⟩ := roundRows_ok hout
    have hassert : assertAllInDomain bp.domain out = .ok true := by
      refine assertAllInDomain_ok (fun v hv => ?_)
      have hvd : v ∈ bp.domain := hmem v hv
      rw [eqAllAny_ok (fun r hr => hrect r hr v hvd)]
      exact congrArg Except.ok (decide_eq_true hvd)
    have hne : out.isEmpty = false := by
      cases rows with
      | nil => exact absurd rfl hrows
      | cons a l =>
        cases out with
        | nil => simp at hlen
        | cons b m => rfl
    rw [roundBP, hd, ok_bind, if_neg (by simp), hout, ok_bind, hassert,
      ok_bind, if_pos rfl, if_neg (by simp [hne])]
    rfl

/-- Witness for C8: on the example instance a 1-D input errors, a 2-D input
with 3 columns errors, and the 2-D one-row input [[0, 0]] with exactly
`dimension` columns is accepted. -/
theorem round_error_conditions_inst :
    roundBP exBP (.mk1 [1, 10]) = .error "Expected 2d array, got 1" ∧
    roundBP exBP (.mk2 3 [[0, 0, 0]]) = .error "Expected a dimension column array" ∧
    (roundBP exBP (.mk2 2 [[0, 0]])).isOk = true := by
  have h := round_error_conditions exBP 2 (by decide) (by decide) (by decide)
  exact ⟨h.1 [1, 10], h.2.2.1 3 [[0, 0, 0]] (by decide), h.2.2.2 [[0, 0]] (by decide)⟩

/-- The accumulated dimension loop on a list with no unknown-kind
descriptor: it adds up the per-descriptor contributions. -/
theorem dimension_foldlM_ok (ps : List SubParam)
    (h : ∀ p ∈ ps, p.isExtra = false) (acc : Nat) :
    List.foldlM dimStep acc ps = .ok (acc + (ps.map dimContrib).sum) := by
  induction ps generalizing acc with
  | nil => simp [List.foldlM_nil, pure_eq_ok]
  | cons p ps' ih =>
    have hp := h p (List.mem_cons_self p ps')
    have ih' := ih (fun q hq => h q (List.mem_cons_of_mem _ hq))
    cases p with
    | extra n => simp [SubParam.isExtra] at hp
    | continuous n lo hi =>
      simp only [List.foldlM_cons, dimStep, ok_bind, ih', List.map_cons,
        List.sum_cons, dimContrib]
      exact congrArg Except.ok (by omega)
    | discrete n dom =>
      simp only [List.foldlM_cons, dimStep, ok_bind, ih', List.map_cons,
        List.sum_cons, dimContrib]
      exact congrArg Except.ok (by omega)
    | categorical n e =>
      simp only [List.foldlM_cons, dimStep, ok_bind, ih', List.map_cons,
        List.sum_cons, dimContrib]
      exact congrArg Except.ok (by omega)

/-- `dimension` on a list with no unknown-kind descriptor succeeds with the
sum of the per-descriptor contributions. -/
theorem dimension_ok_of_no_extra {ps : List SubParam}
    (h : ∀ p ∈ ps, p.isExtra = false) :
    dimension ps = .ok ((ps.map dimContrib).sum) := by
  simpa [dimension] using dimension_foldlM_ok ps h 0

/-- The accumulated dimension loop fails when some descriptor is of an
unknown kind. -/
theorem dimension_foldlM_error (ps : List SubParam) (p : SubParam)
    (hp : p ∈ ps) (hx : p.isExtra = true) (acc : Nat) :
    (List.foldlM dimStep acc ps).isOk = false := by
  induction ps generalizing acc with
  | nil => simp at hp
  | cons q qs ih =>
    rcases List.mem_cons.mp hp with h' | h'
    · subst h'
      cases p with
      | extra n => simp [List.foldlM_cons, dimStep, error_bind, Except.isOk, Except.toBool]
      | continuous n lo hi => simp [SubParam.isExtra] at hx
      | discrete n dom => simp [SubParam.isExtra] at hx
      | categorical n e => simp [SubParam.isExtra] at hx
    · cases q with
      | extra n => simp [List.foldlM_cons, dimStep, error_bind, Except.isOk, Except.toBool]
      | continuous n lo hi =>
        simp only [List.foldlM_cons, dimStep, ok_bind]
        exact ih h' _
      | discrete n dom =>
        simp only [List.foldlM_cons, dimStep, ok_bind]
        exact ih h' _
      | categorical n e =>
        simp only [List.foldlM_cons, dimStep, ok_bind]
        exact ih h' _

/-- C4 counterexample: a continuous descriptor is neither Discrete nor
Categorical, yet `dimension` does not fail on it — the isinstance chain
handles ContinuousParameter first and adds 1 — refuting the claim that
every kind other than Discrete and Categorical makes `dimension` fail. -/
theorem dimension_continuous_does_not_fail :
    dimension [SubParam.continuous "c" 0 1] = .ok 1 := by decide

/-- C4 (amended): `dimension` is the sum of the per-descriptor
contributions — 1 for a Continuous or Discrete descriptor, the one-hot
width for a Categorical descriptor — and fails exactly when it encounters
a descriptor of any other kind. -/
theorem dimension_sum_of_contributions (ps : List SubParam) :
    ((∀ p ∈ ps, p.isExtra = false) →
      dimension ps = .ok ((ps.map dimContrib).sum)) ∧
    (∀ p ∈ ps, p.isExtra = true → (dimension ps).isOk = false) := by
  refine ⟨dimension_ok_of_no_extra, fun p hp hx => ?_⟩
  simpa [dimension] using dimension_foldlM_error ps p hp hx 0

/-- Witness for C4: on the example instance's two discrete descriptors the
contributions sum to 2, and a single unknown-kind descriptor makes the
lookup fail. -/
theorem dimension_sum_of_contributions_inst :
    dimension exBP.parameters = .ok 2 ∧
    (dimension [SubParam.extra "e"]).isOk = false := by
  refine ⟨?_, (dimension_sum_of_contributions [SubParam.extra "e"]).2
    (SubParam.extra "e") (by simp) rfl⟩
  exact (dimension_sum_of_contributions exBP.parameters).1 (by decide)

/-- Each descriptor contributes exactly as many bound pairs as its
dimension contribution. -/
theorem subParamBounds_length (p : SubParam) :
    (subParamBounds p).length = dimContrib p := by
  cases p <;> simp [subParamBounds, dimContrib, catDimension]

/-- Inversion of the accumulated dimension loop: a success value is the
accumulator plus the contribution sum. -/
theorem dimension_foldlM_inv {ps : List SubParam} {acc d : Nat}
    (h : List.foldlM dimStep acc ps = .ok d) :
    d = acc + (ps.map dimContrib).sum := by
  induction ps generalizing acc with
  | nil =>
    rw [List.foldlM_nil, pure_eq_ok] at h
    have := Except.ok.inj h
    simp [this]
  | cons p ps' ih =>
    cases p with
    | extra n => rw [List.foldlM_cons] at h; exact absurd h (by simp [dimStep, error_bind])
    | continuous n lo hi =>
      rw [List.foldlM_cons] at h
      have := ih h
      simp only [List.map_cons, List.sum_cons, dimContrib]
      omega
    | discrete n dom =>
      rw [List.foldlM_cons] at h
      have := ih h
      simp only [List.map_cons, List.sum_cons, dimContrib]
      omega
    | categorical n e =>
      rw [List.foldlM_cons] at h
      have := ih h
      simp only [List.map_cons, List.sum_cons, dimContrib]
      omega

/-- The length of the concatenated bounds list is the contribution sum. -/
theorem bounds_length_eq_sum (bp : BanditParameter) :
    (bounds bp).length = (bp.parameters.map dimContrib).sum := by
  rw [bounds, List.length_flatten, List.map_map]
  congr 1
  exact List.map_congr_left (fun p _ => subParamBounds_length p)

/-- C5: `bounds` is the concatenation, in sub-parameter order, of each
descriptor's own bounds list, its length equals `dimension` whenever the
dimension lookup succeeds, and on the purely-discrete 2-column example
domain it is exactly [(1, 2), (10, 20)]. -/
theorem bounds_concat_length_eq_dimension :
    (∀ (bp : BanditParameter) (d : Nat), dimension bp.parameters = .ok d →
      bounds bp = (bp.parameters.map subParamBounds).flatten ∧
      (bounds bp).length = d) ∧
    bounds exBP = [(1, 2), (10, 20)] := by
  refine ⟨fun bp d hd => ⟨rfl, ?_⟩, by decide⟩
  have hsum : d = 0 + (bp.parameters.map dimContrib).sum :=
    dimension_foldlM_inv (by simpa [dimension] using hd)
  rw [bounds_length_eq_sum]
  omega

/-- Witness for C5: on the example instance dimension is 2, bounds has
length 2, and bounds is exactly [(1, 2), (10, 20)] as the spec's example
requires. -/
theorem bounds_concat_length_eq_dimension_inst :
    (bounds exBP).length = 2 ∧ bounds exBP = [(1, 2), (10, 20)] := by
  exact ⟨(bounds_concat_length_eq_dimension.1 exBP 2 (by decide)).2,
    bounds_concat_length_eq_dimension.2⟩

/-- On a numeric dtype the reflection loop cannot fail: it produces one
discrete descriptor per enumerated column, over the column's sorted unique
values. -/
theorem createColumns_number (rows : Table) (l : List (Nat × String)) :
    createColumns .number rows l =
      .ok (l.map (fun e => SubParam.discrete e.2 (npUnique (column rows e.1)))) := by
  induction l with
  | nil => rfl
  | cons e es ih =>
    cases e with
    | mk cix pname =>
      simp [createColumns, reflectColumn, ih, ok_bind, pure_eq_ok]

/-- On a non-numeric dtype the reflection loop fails at its first column
(right after building the one-hot encoding and categorical parameter). -/
theorem createColumns_object (rows : Table) (e : Nat × String)
    (l : List (Nat × String)) :
    createColumns .object rows (e :: l) =
      .error "Categorical sub-parameters not yet fully supported" := by
  cases e
  rfl

/-- Inversion of the reflection loop: a success yields one descriptor per
enumerated column, all of them discrete. -/
theorem createColumns_ok_inv {dt : DType} {rows : Table}
    {l : List (Nat × String)} {ps : List SubParam}
    (h : createColumns dt rows l = .ok ps) :
    ps.length = l.length ∧ ∀ p ∈ ps, p.isDiscrete = true := by
  cases dt with
  | object =>
    cases l with
    | nil =>
      have : ps = [] := by simpa [createColumns] using h.symm
      subst this
      simp
    | cons e es => rw [createColumns_object] at h; exact absurd h (by simp)
  | number =>
    rw [createColumns_number] at h
    have hps := (Except.ok.inj h).symm
    subst hps
    constructor
    · exact List.length_map _ _
    · intro p hp
      obtain ⟨e, _, rfl⟩ := List.mem_map.mp hp
      rfl

/-- The default sub-parameter names: one per column. -/
theorem createParameterNames_length (name : String) (cols : Nat) :
    (createParameterNames name cols).length = cols := by
  simp [createParameterNames]

/-- Inversion of `_create_parameters`: a success yields one descriptor per
domain column, all of them discrete. -/
theorem createParameters_ok_inv {name : String} {dt : DType} {cols : Nat}
    {rows : Table} {names : Option (List String)} {ps : List SubParam}
    (h : createParameters name dt cols rows names = .ok ps) :
    ps.length = cols ∧ ∀ p ∈ ps, p.isDiscrete = true := by
  unfold createParameters at h
  by_cases hc : cols = (resolveNames name cols names).length
  · rw [if_pos hc] at h
    obtain ⟨hlen, hdisc⟩ := createColumns_ok_inv h
    refine ⟨?_, hdisc⟩
    rw [hlen, List.enum_length, ← hc]
  · rw [if_neg hc] at h
    exact absurd h (by simp)

/-- With all-discrete descriptors the contribution sum is the list
length. -/
theorem sum_dimContrib_of_discrete {ps : List SubParam}
    (h : ∀ p ∈ ps, p.isDiscrete = true) :
    (ps.map dimContrib).sum = ps.length := by
  induction ps with
  | nil => rfl
  | cons p ps' ih =>
    have hp := h p (List.mem_cons_self p ps')
    have ih' := ih (fun q hq => h q (List.mem_cons_of_mem _ hq))
    cases p with
    | discrete n dom =>
      simp only [List.map_cons, List.sum_cons, dimContrib, ih', List.length_cons]
      omega
    | continuous n lo hi => simp [SubParam.isDiscrete] at hp
    | categorical n e => simp [SubParam.isDiscrete] at hp
    | extra n => simp [SubParam.isDiscrete] at hp

/-- C10: any successfully constructed BanditParameter has only Discrete
sub-parameter descriptors, one per domain column, each contributing
dimension 1; hence `dimension` equals the domain's column count and
`bounds` has exactly one pair per column. -/
theorem constructed_parameters_all_discrete (name : String) (dt : DType)
    (arr : NdArr) (names : Option (List String)) (bp : BanditParameter)
    (h : mkBanditParameter name dt arr names = .ok bp) :
    (∀ p ∈ bp.parameters, p.isDiscrete = true) ∧
    bp.parameters.length = bp.domainCols ∧
    dimension bp.parameters = .ok bp.domainCols ∧
    (bounds bp).length = bp.domainCols := by
  cases arr with
  | mk1 v => exact absurd h (by simp [mkBanditParameter])
  | mkHigher k => exact absurd h (by simp [mkBanditParameter])
  | mk2 cols rows =>
    cases hp : createParameters name dt cols rows names with
    | error e => rw [mkBanditParameter, hp, error_bind] at h; exact absurd h (by simp)
    | ok ps =>
      rw [mkBanditParameter, hp, ok_bind, pure_eq_ok] at h
      have hbp : bp = ⟨name, rows, cols, ps⟩ := (Except.ok.inj h).symm
      subst hbp
      obtain ⟨hlen, hdisc⟩ := createParameters_ok_inv hp
      have hnoextra : ∀ p ∈ ps, p.isExtra = false := by
        intro p hp'
        have := hdisc p hp'
        cases p <;> simp_all [SubParam.isDiscrete, SubParam.isExtra]
      have hsum : (ps.map dimContrib).sum = cols := by
        rw [sum_dimContrib_of_discrete hdisc, hlen]
      refine ⟨hdisc, hlen, ?_, ?_⟩
      · rw [dimension_ok_of_no_extra hnoextra, hsum]
      · show (bounds ⟨name, rows, cols, ps⟩).length = cols
        rw [bounds_length_eq_sum]
        exact hsum

/-- Witness for C10: the example construction yields two discrete
descriptors, with dimension and bounds length both equal to the column
count 2. -/
theorem constructed_parameters_all_discrete_inst :
    (SubParam.discrete "b_0" [1, 2]).isDiscrete = true ∧
    exBP.parameters.length = exBP.domainCols ∧
    dimension exBP.parameters = .ok exBP.domainCols ∧
    (bounds exBP).length = exBP.domainCols := by
  have h := constructed_parameters_all_discrete "b" .number (.mk2 2 exDomain)
    none exBP exBP_construction
  exact ⟨h.1 _ (by decide), h.2.1, h.2.2.1, h.2.2.2⟩

/-- The reflection loop on a non-numeric dtype fails whenever there is at
least one column to reflect. -/
theorem createColumns_object_ne {rows : Table} {l : List (Nat × String)}
    (h : l ≠ []) :
    createColumns .object rows l =
      .error "Categorical sub-parameters not yet fully supported" := by
  cases l with
  | nil => exact absurd rfl h
  | cons e es => exact createColumns_object rows e es

/-- C9 counterexample: supplying an explicitly empty sub-parameter-name
list for the 2-column example domain does not fail — the empty list is
falsy in Python, so it is silently replaced by the default names and
construction succeeds — refuting the claim that any supplied name list
whose length differs from the column count raises ShapeError. -/
theorem construct_empty_name_list_succeeds :
    mkBanditParameter "b" DType.number (.mk2 2 exDomain) (some []) = .ok exBP := by
  decide

/-- C9 (amended): construction fails on a non-2-D domain; it fails when an
explicitly supplied non-empty name list's length differs from the column
count (a supplied empty list is falsy and is replaced by the default
names); and with a non-numeric dtype and at least one column it always
fails with the unsupported error raised right after the one-hot encoding
is built, so no BanditParameter with a non-numeric column is ever
constructed. -/
theorem construct_error_conditions :
    (∀ name dt v names, mkBanditParameter name dt (.mk1 v) names =
      .error "AssertionError: domain.ndim is 1") ∧
    (∀ name dt k names, mkBanditParameter name dt (.mkHigher k) names =
      .error "AssertionError: domain.ndim exceeds 2") ∧
    (∀ name dt cols rows l, l ≠ [] → l.length ≠ cols →
      mkBanditParameter name dt (.mk2 cols rows) (some l) =
        .error "AssertionError: name count differs from column count") ∧
    (∀ name cols rows, cols ≠ 0 →
      mkBanditParameter name .object (.mk2 cols rows) none =
        .error "Categorical sub-parameters not yet fully supported") ∧
    (∀ name cols rows names, cols ≠ 0 →
      (mkBanditParameter name .object (.mk2 cols rows) names).isOk = false) := by
  have hres : ∀ name cols, resolveNames name cols none =
      createParameterNames name cols := fun _ _ => rfl
  refine ⟨fun name dt v names => rfl, fun name dt k names => rfl, ?_, ?_, ?_⟩
  · intro name dt cols rows l hne hlen
    have h0 : l.isEmpty = false := by
      cases l with
      | nil => exact absurd rfl hne
      | cons a t => rfl
    have hr : resolveNames name cols (some l) = l := by
      simp [resolveNames, h0]
    rw [mkBanditParameter, createParameters, hr,
      if_neg (fun hh => hlen hh.symm), error_bind]
  · intro name cols rows hc
    have hif : cols = (resolveNames name cols none).length := by
      rw [hres, createParameterNames_length]
    have henum : (resolveNames name cols none).enum ≠ [] := by
      intro hnil
      have hl := congrArg List.length hnil
      rw [List.enum_length, hres, createParameterNames_length] at hl
      exact hc hl
    rw [mkBanditParameter, createParameters, if_pos hif,
      createColumns_object_ne henum, error_bind]
  · intro name cols rows names hc
    by_cases hif : cols = (resolveNames name cols names).length
    · have henum : (resolveNames name cols names).enum ≠ [] := by
        intro hnil
        have hl := congrArg List.length hnil
        rw [List.enum_length, ← hif] at hl
        exact hc hl
      rw [mkBanditParameter, createParameters, if_pos hif,
        createColumns_object_ne henum, error_bind]
      rfl
    · rw [mkBanditParameter, createParameters, if_neg hif, error_bind]
      rfl

/-- Witness for C9 on concrete inputs: a 1-D domain is rejected, a wrong
non-empty name list is rejected, and a non-numeric 2-column domain fails
with the unsupported error. -/
theorem construct_error_conditions_inst :
    mkBanditParameter "b" DType.number (.mk1 [1, 10]) none =
      .error "AssertionError: domain.ndim is 1" ∧
    mkBanditParameter "b" DType.number (.mk2 2 exDomain) (some ["a"]) =
      .error "AssertionError: name count differs from column count" ∧
    mkBanditParameter "b" DType.object (.mk2 2 exDomain) none =
      .error "Categorical sub-parameters not yet fully supported" := by
  have h := construct_error_conditions
  exact ⟨h.1 "b" .number [1, 10] none,
    h.2.2.1 "b" .number 2 exDomain ["a"] (by simp) (by decide),
    h.2.2.2.1 "b" 2 exDomain (by decide)⟩

end Bandit
